import Mathlib

/-!
Shallow embedding of the route-optimisation core of the rotasapp repository
(src/rotas_app/app.py and src/streamlit_app.py), together with theorems
settling the specification claims about it.

Modelling conventions:
* A geographic coordinate (latitude, longitude) is a pair of exact rationals.
* The geodesic great-circle distance computed by geopy is an irrational-valued
  transcendental function of the two coordinates; it is modelled as an explicit
  parameter of every definition that uses it, so all statements
  quantify over the segment-distance function.  Concrete witnesses instantiate
  it with a computable symmetric metric.
* Python float arithmetic is modelled over exact rationals, extended by the
  positive-infinity sentinel that the code uses (the type PyFloat below).
* A Python-level coordinate value is an Option Coordinate: None (absent,
  geocoding failed) is the only falsy value that ever flows into these
  functions, since a non-empty tuple is always truthy in Python.
-/

namespace RotasApp

/-- Geographic coordinate: a (latitude, longitude) pair in decimal degrees,
modelled with exact rational components. -/
abbrev Coordinate : Type := ℚ × ℚ

/-- The values of Python float arithmetic actually reachable in this program:
a finite value (modelled exactly as a rational) or positive infinity,
the sentinel the code creates with float of "inf". -/
inductive PyFloat : Type where
  | fin (q : ℚ) : PyFloat
  | inf : PyFloat
deriving DecidableEq, Repr

/-- Python float addition restricted to the reachable values: finite plus
finite is finite, and anything involving infinity is infinity. -/
def PyFloat.add : PyFloat → PyFloat → PyFloat
  | .fin a, .fin b => .fin (a + b)
  | _, _ => .inf

/-- Python float strict comparison on the reachable values: every finite
value is below infinity, and infinity is below nothing. -/
def PyFloat.ltb : PyFloat → PyFloat → Bool
  | .fin a, .fin b => decide (a < b)
  | .fin _, .inf => true
  | .inf, _ => false

/-- Python round to the nearest integer with ties going to the even
integer (the semantics of the built-in round on one argument). -/
def pyRoundInt (q : ℚ) : ℤ :=
  let f : ℤ := ⌊q⌋
  let frac : ℚ := q - f
  if frac < 1 / 2 then f
  else if 1 / 2 < frac then f + 1
  else if f % 2 = 0 then f else f + 1

/-- Python round(x, 2): round to two decimal places, ties to even. -/
def pyRound2 (q : ℚ) : ℚ := (pyRoundInt (q * 100) : ℚ) / 100

/-- Embedding of calculate_distance_time from src/rotas_app/app.py lines
38-60 (identical logic in src/streamlit_app.py lines 80-87).  If either
coordinate is absent (falsy) it returns the (inf, inf) sentinel pair;
otherwise it returns the geodesic distance in kilometres and the time
estimate distance / 50 * 60 + 5 in minutes. -/
def calculate_distance_time (geodesic : Coordinate → Coordinate → ℚ) :
    Option Coordinate → Option Coordinate → PyFloat × PyFloat
  | some coord1, some coord2 =>
    let distance_km := geodesic coord1 coord2
    (.fin distance_km, .fin (distance_km / 50 * 60 + 5))
  | _, _ => (.inf, .inf)

/-- The metrics dictionary produced by calculate_route_cost: total distance
in km (rounded to 2 decimals), total time in whole minutes, total cost
(rounded to 2 decimals). -/
structure RouteMetrics where
  distance : ℚ
  time : ℤ
  cost : ℚ
deriving DecidableEq, Repr

/-- Embedding of calculate_route_cost from src/rotas_app/app.py lines 62-90
(identical logic in src/streamlit_app.py lines 90-107).  Fewer than two
coordinates yields the all-zero metrics.  Otherwise the loop accumulates the
segment distances and times of every consecutive pair at full precision and
rounds only at the end.  The none result models the OverflowError that
Python round raises on an infinite total time, which happens exactly when
some consecutive pair involves an absent coordinate; the code never reaches
that state because optimize_route validates all coordinates first. -/
def calculate_route_cost (geodesic : Coordinate → Coordinate → ℚ)
    (route_coords : List (Option Coordinate)) : Option RouteMetrics :=
  if route_coords.length < 2 then some ⟨0, 0, 0⟩
  else
    let segments := route_coords.zip route_coords.tail
    let total_distance :=
      (segments.map fun p => (calculate_distance_time geodesic p.1 p.2).1).foldl
        PyFloat.add (.fin 0)
    let total_time :=
      (segments.map fun p => (calculate_distance_time geodesic p.1 p.2).2).foldl
        PyFloat.add (.fin 0)
    match total_distance, total_time with
    | .fin d, .fin t =>
      some ⟨pyRound2 d, pyRoundInt t, pyRound2 (d * (1 / 2) + t * (1 / 5))⟩
    | _, _ => none

/-- The path of calculate_route_cost taken when every coordinate in the list
is present, written directly over rationals with declarative sums.  The
lemma calculate_route_cost_map_some proves it coincides with the embedding
above on such inputs; optimize_route only ever reaches this path. -/
def routeCostFinite (geodesic : Coordinate → Coordinate → ℚ)
    (coords : List Coordinate) : RouteMetrics :=
  if coords.length < 2 then ⟨0, 0, 0⟩
  else
    let segments := coords.zip coords.tail
    let d := (segments.map fun p => geodesic p.1 p.2).sum
    let t := (segments.map fun p => geodesic p.1 p.2 / 50 * 60 + 5).sum
    ⟨pyRound2 d, pyRoundInt t, pyRound2 (d * (1 / 2) + t * (1 / 5))⟩

/-- Folding PyFloat addition over a list of finite values stays finite and
computes the rational sum. -/
theorem foldl_pyAdd_fin {σ : Type} (f : σ → ℚ) :
    ∀ (l : List σ) (q : ℚ),
      (l.map fun x => PyFloat.fin (f x)).foldl PyFloat.add (.fin q) =
        .fin (q + (l.map f).sum)
  | [], q => by simp
  | x :: xs, q => by
    simp only [List.map_cons, List.foldl_cons, PyFloat.add, List.sum_cons]
    rw [foldl_pyAdd_fin f xs (q + f x)]
    ring_nf

/-- On a list of present coordinates, calculate_route_cost succeeds and
agrees with the declarative routeCostFinite. -/
theorem calculate_route_cost_map_some (geodesic : Coordinate → Coordinate → ℚ)
    (coords : List Coordinate) :
    calculate_route_cost geodesic (coords.map some) =
      some (routeCostFinite geodesic coords) := by
  unfold calculate_route_cost routeCostFinite
  by_cases h : coords.length < 2
  · simp [h]
  · simp only [List.length_map, h, if_neg h, reduceIte]
    have htail : (coords.map some).tail = coords.tail.map some := by
      cases coords <;> simp
    have hzip : (coords.map some).zip ((coords.map some).tail) =
        (coords.zip coords.tail).map fun p => (some p.1, some p.2) := by
      rw [htail, List.zip_map]
      rfl
    rw [hzip]
    simp only [List.map_map]
    have h1 : ((coords.zip coords.tail).map
        ((fun p => (calculate_distance_time geodesic p.1 p.2).1) ∘
          fun p => (some p.1, some p.2))) =
        (coords.zip coords.tail).map fun p => PyFloat.fin (geodesic p.1 p.2) := by
      apply List.map_congr_left
      intro p _
      rfl
    have h2 : ((coords.zip coords.tail).map
        ((fun p => (calculate_distance_time geodesic p.1 p.2).2) ∘
          fun p => (some p.1, some p.2))) =
        (coords.zip coords.tail).map
          fun p => PyFloat.fin (geodesic p.1 p.2 / 50 * 60 + 5) := by
      apply List.map_congr_left
      intro p _
      rfl
    rw [h1, h2, foldl_pyAdd_fin, foldl_pyAdd_fin]
    simp

/-- All ways to select one element of a list, in position order, each paired
with the remaining elements in their original relative order.  This is the
selection scheme underlying itertools.permutations. -/
def selections {α : Type} : List α → List (α × List α)
  | [] => []
  | x :: xs => (x, xs) :: (selections xs).map fun p => (p.1, x :: p.2)

/-- Fuel-indexed permutation generator; with fuel equal to the list length it
produces exactly the tuples of itertools.permutations in their order. -/
def permsAux {α : Type} : Nat → List α → List (List α)
  | 0, _ => [[]]
  | n + 1, xs =>
    (selections xs).flatMap fun p => (permsAux n p.2).map fun l => p.1 :: l

/-- Embedding of itertools.permutations on a whole list: all permutations of
the input positions, enumerated in the lexicographic order of positions that
itertools uses (first element varies slowest). -/
def permutationsPy {α : Type} (xs : List α) : List (List α) :=
  permsAux xs.length xs

theorem selections_length {α : Type} (xs : List α) :
    (selections xs).length = xs.length := by
  induction xs with
  | nil => rfl
  | cons x xs ih => simp [selections, ih]

theorem mem_selections {α : Type} {xs : List α} {p : α × List α}
    (h : p ∈ selections xs) : (p.1 :: p.2).Perm xs := by
  induction xs generalizing p with
  | nil => simp [selections] at h
  | cons x xs ih =>
    simp only [selections, List.mem_cons, List.mem_map] at h
    rcases h with h | ⟨q, hq, rfl⟩
    · rw [h]
    · exact (List.Perm.swap x q.1 q.2).trans ((ih hq).cons x)

theorem mem_selections_snd_length {α : Type} {xs : List α} {p : α × List α}
    (h : p ∈ selections xs) : p.2.length + 1 = xs.length := by
  have := (mem_selections h).length_eq
  simpa using this

theorem permsAux_length {α : Type} :
    ∀ (n : Nat) (xs : List α), xs.length = n →
      (permsAux n xs).length = Nat.factorial n
  | 0, xs, _ => rfl
  | n + 1, xs, hlen => by
    simp only [permsAux, List.length_flatMap, Function.comp_def, List.length_map]
    have hconst : ∀ p ∈ selections xs, (permsAux n p.2).length = Nat.factorial n := by
      intro p hp
      exact permsAux_length n p.2 (by have := mem_selections_snd_length hp; omega)
    calc ((selections xs).map fun p => (permsAux n p.2).length).sum
        = ((selections xs).map fun _ => Nat.factorial n).sum := by
          apply congrArg
          exact List.map_congr_left hconst
      _ = (selections xs).length * Nat.factorial n := by
          rw [List.map_const', List.sum_replicate, smul_eq_mul]
      _ = Nat.factorial (n + 1) := by
          rw [selections_length, hlen, Nat.factorial_succ]

theorem mem_permsAux {α : Type} :
    ∀ (n : Nat) (xs : List α) (l : List α), xs.length = n →
      l ∈ permsAux n xs → l.Perm xs
  | 0, xs, l, hlen, hmem => by
    have hxs : xs = [] := List.length_eq_zero.mp hlen
    simp only [permsAux, List.mem_singleton] at hmem
    rw [hmem, hxs]
  | n + 1, xs, l, hlen, hmem => by
    simp only [permsAux, List.mem_flatMap, List.mem_map] at hmem
    obtain ⟨p, hp, l', hl', rfl⟩ := hmem
    have hp2 : p.2.length = n := by have := mem_selections_snd_length hp; omega
    exact ((mem_permsAux n p.2 l' hp2 hl').cons p.1).trans (mem_selections hp)

/-- The number of tuples itertools.permutations yields on a list of length n
is exactly n factorial. -/
theorem permutationsPy_length {α : Type} (xs : List α) :
    (permutationsPy xs).length = Nat.factorial xs.length :=
  permsAux_length xs.length xs rfl

/-- Every enumerated tuple is a permutation (as a multiset) of the input. -/
theorem mem_permutationsPy {α : Type} {xs l : List α}
    (h : l ∈ permutationsPy xs) : l.Perm xs :=
  mem_permsAux xs.length xs l rfl h

/-- The error returns of optimize_route, one constructor per distinct error
string the function can produce. -/
inductive RouteError (α : Type) : Type where
  | tooFewStops : RouteError α
  | tooManyStops : RouteError α
  | unresolvedAddress (addr : α) : RouteError α
  | noDeliveryAddress : RouteError α
deriving DecidableEq, Repr

/-- The per-route dictionary route_data assembled inside the enumeration
loop of optimize_route (src/rotas_app/app.py lines 156-163): the address
sequence, its coordinates, the three metrics, and the miles conversion. -/
structure RouteData (α : Type) where
  addresses : List α
  coordinates : List Coordinate
  distance : ℚ
  time : ℤ
  cost : ℚ
  distance_miles : ℚ
deriving DecidableEq, Repr

/-- The success dictionary returned by optimize_route: best route, top-ten
sorted alternatives, and the permutation count. -/
structure OptimizeResult (α : Type) : Type where
  best_route : Option (RouteData α)
  all_routes : List (RouteData α)
  total_permutations : Nat
deriving DecidableEq, Repr

/-- One iteration body of the enumeration loop: build the full address list
for a permutation (origin first, origin again at the end when returning to
start), map addresses to coordinates, and package the metrics. -/
def buildRouteData {α : Type} (geodesic : Coordinate → Coordinate → ℚ)
    (coordOf : α → Coordinate) (start_address : α) (return_to_start : Bool)
    (perm : List α) : RouteData α :=
  let route_addresses :=
    if return_to_start then start_address :: (perm ++ [start_address])
    else start_address :: perm
  let route_coords := route_addresses.map coordOf
  let route_info := routeCostFinite geodesic route_coords
  { addresses := route_addresses
    coordinates := route_coords
    distance := route_info.distance
    time := route_info.time
    cost := route_info.cost
    distance_miles := pyRound2 (route_info.distance * (621371 / 1000000)) }

/-- The all_routes list of the enumeration loop, in enumeration order: one
candidate RouteData per permutation of the delivery addresses. -/
def candidates {α : Type} (geodesic : Coordinate → Coordinate → ℚ)
    (coordOf : α → Coordinate) (start_address : α)
    (delivery_addresses : List α) (return_to_start : Bool) :
    List (RouteData α) :=
  (permutationsPy delivery_addresses).map
    (buildRouteData geodesic coordOf start_address return_to_start)

/-- The best-route update of the loop: replace the tracked best exactly when
the new cost is strictly below the best cost seen so far (which starts at
the float infinity sentinel). -/
def stepBest {α : Type} (acc : Option (RouteData α) × PyFloat)
    (route_data : RouteData α) : Option (RouteData α) × PyFloat :=
  if PyFloat.ltb (.fin route_data.cost) acc.2 then
    (some route_data, .fin route_data.cost)
  else acc

/-- Embedding of optimize_route from src/rotas_app/app.py lines 92-179.
The geocoding collaborator is the explicit function geo (the code calls
geocode_address, a network lookup outside the core); a none result for any
input address aborts with the could-not-geocode error, checked in input
order, exactly as the geocoding loop does.  After validation the code looks
coordinates up in the dict coords_map, which on the success path is total on
the input addresses; the lookup is modelled by Option.getD with an
irrelevant default that is provably never used.  The enumeration loop both
appends every candidate to all_routes and folds the strict-less best
update; the final list is stable-sorted ascending by cost and truncated to
ten entries.  The address_data diagnostic list of the Flask variant (input
echo for the UI) is not modelled; the streamlit variant returns only
best_route, computed by the same logic. -/
def optimize_route {α : Type} (geodesic : Coordinate → Coordinate → ℚ)
    (geo : α → Option Coordinate) (addresses : List α)
    (return_to_start : Bool) :
    Except (RouteError α) (OptimizeResult α) :=
  if addresses.length < 2 then .error .tooFewStops
  else if addresses.length > 10 then .error .tooManyStops
  else
    match addresses.find? fun a => (geo a).isNone with
    | some a => .error (.unresolvedAddress a)
    | none =>
      match addresses with
      | [] => .error .tooFewStops
      | start_address :: delivery_addresses =>
        if delivery_addresses.isEmpty then .error .noDeliveryAddress
        else
          let coordOf : α → Coordinate := fun a => (geo a).getD (0, 0)
          let num_permutations := (permutationsPy delivery_addresses).length
          let all_routes :=
            candidates geodesic coordOf start_address delivery_addresses
              return_to_start
          let best := all_routes.foldl stepBest (none, .inf)
          .ok
            { best_route := best.1
              all_routes :=
                (all_routes.mergeSort fun a b => decide (a.cost ≤ b.cost)).take 10
              total_permutations := num_permutations }

/-- On a valid input (non-empty delivery list, at most ten addresses in all,
every address geocoded) optimize_route reaches its success return, whose
three fields are the tracked best, the sorted truncated candidate list, and
the permutation count. -/
theorem optimize_route_ok {α : Type} (geodesic : Coordinate → Coordinate → ℚ)
    (geo : α → Option Coordinate) (a : α) (ds : List α) (rts : Bool)
    (hds : ds ≠ []) (h10 : ds.length ≤ 9)
    (hres : ∀ x ∈ a :: ds, (geo x).isSome) :
    optimize_route geodesic geo (a :: ds) rts =
      .ok
        { best_route :=
            ((candidates geodesic (fun x => (geo x).getD (0, 0)) a ds
              rts).foldl stepBest (none, .inf)).1
          all_routes :=
            ((candidates geodesic (fun x => (geo x).getD (0, 0)) a ds
              rts).mergeSort fun u v => decide (u.cost ≤ v.cost)).take 10
          total_permutations := (permutationsPy ds).length } := by
  have hlen : ¬((a :: ds).length < 2) := by
    have : ds.length ≠ 0 := fun h => hds (List.length_eq_zero.mp h)
    simp only [List.length_cons]
    omega
  have hlen10 : ¬((a :: ds).length > 10) := by
    simp only [List.length_cons]
    omega
  have hfind : (a :: ds).find? (fun x => (geo x).isNone) = none := by
    rw [List.find?_eq_none]
    intro x hx
    have := hres x hx
    cases hgeo : geo x with
    | none => rw [hgeo] at this; exact Bool.noConfusion this
    | some c => simp [Option.isNone]
  have hemp : ds.isEmpty = false := by
    cases ds with
    | nil => exact absurd rfl hds
    | cons y ys => rfl
  unfold optimize_route
  rw [if_neg hlen, if_neg hlen10, hfind]
  simp only [hemp, Bool.false_eq_true, if_false, reduceIte]

/-- The strict-less fold over a non-empty candidate list tracks the first
enumerated candidate of globally minimal cost: the result splits the list
as a prefix of strictly costlier candidates, the winner, and a suffix no
cheaper than the winner. -/
theorem foldl_stepBest_spec {α : Type} :
    ∀ l : List (RouteData α), l ≠ [] →
      ∃ b l₁ l₂, (l.foldl stepBest (none, .inf)).1 = some b ∧
        (l.foldl stepBest (none, .inf)).2 = .fin b.cost ∧
        l = l₁ ++ b :: l₂ ∧
        (∀ c ∈ l, b.cost ≤ c.cost) ∧
        (∀ c ∈ l₁, b.cost < c.cost) := by
  intro l
  induction l using List.reverseRecOn with
  | nil => intro h; exact absurd rfl h
  | append_singleton l x ih =>
    intro _
    rw [List.foldl_append, List.foldl_cons, List.foldl_nil]
    by_cases hl : l = []
    · subst hl
      refine ⟨x, [], [], ?_, ?_, rfl, ?_, by simp⟩
      · simp [stepBest, PyFloat.ltb]
      · simp [stepBest, PyFloat.ltb]
      · intro c hc
        rw [List.mem_singleton.mp hc]
    · obtain ⟨b, l₁, l₂, hb1, hb2, hsplit, hmin, hpre⟩ := ih hl
      by_cases hlt : x.cost < b.cost
      · refine ⟨x, l, [], ?_, ?_, by simp, ?_, ?_⟩
        · simp [stepBest, hb2, PyFloat.ltb, hlt]
        · simp [stepBest, hb2, PyFloat.ltb, hlt]
        · intro c hc
          rcases List.mem_append.mp hc with hc | hc
          · exact le_of_lt (lt_of_lt_of_le hlt (hmin c hc))
          · rw [List.mem_singleton.mp hc]
        · intro c hc
          exact lt_of_lt_of_le hlt (hmin c hc)
      · refine ⟨b, l₁, l₂ ++ [x], ?_, ?_, ?_, ?_, hpre⟩
        · simp [stepBest, hb2, PyFloat.ltb, hlt, hb1]
        · simp [stepBest, hb2, PyFloat.ltb, hlt]
        · rw [hsplit]
          simp
        · intro c hc
          rcases List.mem_append.mp hc with hc | hc
          · exact hmin c hc
          · rw [List.mem_singleton.mp hc]
            exact le_of_not_lt hlt

/-- Kernel-reducible absolute value on the rationals. -/
def absQ (q : ℚ) : ℚ := if q < 0 then -q else q

/-- A concrete computable symmetric segment-distance function, used to
instantiate the abstract geodesic parameter in concrete witnesses. -/
def taxiDist : Coordinate → Coordinate → ℚ :=
  fun p q => absQ (p.1 - q.1) + absQ (p.2 - q.2)

/-- A concrete total geocoding collaborator placing address n at (n, 0). -/
def geoLine : Nat → Option Coordinate := fun n => some ((n : ℚ), 0)

/-- A concrete geocoding collaborator that fails on address 2. -/
def geoMissing : Nat → Option Coordinate :=
  fun n => if n = 2 then none else some ((n : ℚ), 0)

/-- C2: calculate_distance_time returns the (inf, inf) sentinel whenever
either coordinate is absent, and on two present coordinates returns the
geodesic distance in kilometres paired with the time estimate
distance / 50 * 60 + 5 minutes. -/
theorem claim_C2_segment_cost (geodesic : Coordinate → Coordinate → ℚ)
    (c1 c2 : Option Coordinate) :
    ((c1 = none ∨ c2 = none) →
      calculate_distance_time geodesic c1 c2 = (.inf, .inf)) ∧
    (∀ a b, c1 = some a → c2 = some b →
      calculate_distance_time geodesic c1 c2 =
        (.fin (geodesic a b), .fin (geodesic a b / 50 * 60 + 5))) := by
  constructor
  · rintro (rfl | rfl)
    · rfl
    · cases c1 <;> rfl
  · rintro a b rfl rfl
    rfl

/-- Witness for C2 at concrete inputs: an absent first coordinate yields the
sentinel, and two present points at taxi distance 50 yield distance 50 and
time 65. -/
theorem claim_C2_witness :
    calculate_distance_time taxiDist none (some (1, 2)) = (.inf, .inf) ∧
    calculate_distance_time taxiDist (some (0, 0)) (some (50, 0)) =
      (.fin (taxiDist (0, 0) (50, 0)),
        .fin (taxiDist (0, 0) (50, 0) / 50 * 60 + 5)) :=
  ⟨(claim_C2_segment_cost taxiDist none (some (1, 2))).1 (Or.inl rfl),
    (claim_C2_segment_cost taxiDist (some (0, 0)) (some (50, 0))).2
      (0, 0) (50, 0) rfl rfl⟩

/-- C3: calculate_route_cost returns the all-zero metrics on fewer than two
coordinates, and on at least two present coordinates returns the sum of the
consecutive-pair segment distances rounded to two decimals, the sum of the
segment times rounded to the nearest whole minute, and the linear tariff
0.50 per km plus 0.20 per minute applied to the unrounded totals and then
rounded to two decimals. -/
theorem claim_C3_route_cost (geodesic : Coordinate → Coordinate → ℚ) :
    (∀ route_coords : List (Option Coordinate), route_coords.length < 2 →
      calculate_route_cost geodesic route_coords = some ⟨0, 0, 0⟩) ∧
    (∀ coords : List Coordinate, 2 ≤ coords.length →
      calculate_route_cost geodesic (coords.map some) =
        some
          { distance :=
              pyRound2 (((coords.zip coords.tail).map
                fun p => geodesic p.1 p.2).sum)
            time :=
              pyRoundInt (((coords.zip coords.tail).map
                fun p => geodesic p.1 p.2 / 50 * 60 + 5).sum)
            cost :=
              pyRound2
                ((((coords.zip coords.tail).map
                    fun p => geodesic p.1 p.2).sum) * (1 / 2) +
                  (((coords.zip coords.tail).map
                    fun p => geodesic p.1 p.2 / 50 * 60 + 5).sum) * (1 / 5)) }) := by
  constructor
  · intro route_coords h
    unfold calculate_route_cost
    rw [if_pos h]
  · intro coords h
    rw [calculate_route_cost_map_some]
    unfold routeCostFinite
    rw [if_neg (by omega)]

/-- Witness for C3 at concrete inputs: a single present coordinate yields
zero metrics, and the two-point route from (0,0) to (50,0) yields the
advertised sums. -/
theorem claim_C3_witness :
    calculate_route_cost taxiDist [some (7, 8)] = some ⟨0, 0, 0⟩ ∧
    calculate_route_cost taxiDist ([(0, 0), (50, 0)].map some) =
      some
        { distance :=
            pyRound2 ((([((0 : ℚ), (0 : ℚ)), (50, 0)].zip
              [((0 : ℚ), (0 : ℚ)), (50, 0)].tail).map
                fun p => taxiDist p.1 p.2).sum)
          time :=
            pyRoundInt ((([((0 : ℚ), (0 : ℚ)), (50, 0)].zip
              [((0 : ℚ), (0 : ℚ)), (50, 0)].tail).map
                fun p => taxiDist p.1 p.2 / 50 * 60 + 5).sum)
          cost :=
            pyRound2
              (((([((0 : ℚ), (0 : ℚ)), (50, 0)].zip
                  [((0 : ℚ), (0 : ℚ)), (50, 0)].tail).map
                    fun p => taxiDist p.1 p.2).sum) * (1 / 2) +
                ((([((0 : ℚ), (0 : ℚ)), (50, 0)].zip
                  [((0 : ℚ), (0 : ℚ)), (50, 0)].tail).map
                    fun p => taxiDist p.1 p.2 / 50 * 60 + 5).sum) * (1 / 5)) } :=
  ⟨(claim_C3_route_cost taxiDist).1 [some (7, 8)] (by decide),
    (claim_C3_route_cost taxiDist).2 [(0, 0), (50, 0)] (by decide)⟩

theorem pyAdd_right_comm (b a₁ a₂ : PyFloat) :
    PyFloat.add (PyFloat.add b a₁) a₂ = PyFloat.add (PyFloat.add b a₂) a₁ := by
  cases b <;> cases a₁ <;> cases a₂ <;> simp [PyFloat.add, add_right_comm]

instance : RightCommutative PyFloat.add := ⟨pyAdd_right_comm⟩

theorem zip_tail_concat {σ : Type} :
    ∀ (l : List σ) (r x : σ),
      ((r :: l) ++ [x]).zip (l ++ [x]) =
        ((r :: l).zip l) ++ [((r :: l).getLastD x, x)]
  | [], r, x => by simp
  | s :: l, r, x => by
    have ih := zip_tail_concat l s x
    simp only [List.cons_append, List.zip_cons_cons] at ih ⊢
    rw [ih]
    simp [List.getLastD_cons]

/-- The consecutive pairs of a reversed list are the swapped consecutive
pairs of the list, in reverse order. -/
theorem zip_tail_reverse {σ : Type} :
    ∀ l : List σ,
      l.reverse.zip l.reverse.tail = ((l.zip l.tail).map Prod.swap).reverse
  | [] => rfl
  | [_] => rfl
  | x :: y :: xs => by
    have ih := zip_tail_reverse (y :: xs)
    obtain ⟨r, R, hc⟩ : ∃ r R, (y :: xs).reverse = r :: R := by
      cases hrc : (y :: xs).reverse with
      | nil => exact absurd hrc (by simp)
      | cons r R => exact ⟨r, R, rfl⟩
    have hlast : (r :: R).getLastD x = y := by
      rw [← hc, List.reverse_cons, List.getLastD_concat]
    rw [hc] at ih
    simp only [List.tail_cons] at ih
    have hrev : (x :: y :: xs).reverse = (r :: R) ++ [x] := by
      rw [List.reverse_cons, hc]
    rw [hrev]
    show ((r :: R) ++ [x]).zip (R ++ [x]) = _
    rw [zip_tail_concat R r x, hlast, ih]
    have hpairs : (x :: y :: xs).zip (x :: y :: xs).tail =
        (x, y) :: ((y :: xs).zip xs) := rfl
    rw [hpairs]
    simp only [List.map_cons, List.reverse_cons]
    rfl

/-- Swapping the two arguments of calculate_distance_time changes nothing
when the geodesic function is symmetric. -/
theorem calculate_distance_time_swap (geodesic : Coordinate → Coordinate → ℚ)
    (hsym : ∀ a b, geodesic a b = geodesic b a)
    (c1 c2 : Option Coordinate) :
    calculate_distance_time geodesic c2 c1 =
      calculate_distance_time geodesic c1 c2 := by
  cases c1 with
  | none => cases c2 <;> rfl
  | some a =>
    cases c2 with
    | none => rfl
    | some b =>
      simp only [calculate_distance_time]
      rw [hsym b a]

/-- C8 counterexample: the claim asserts that reversing any route of at
least two coordinates changes the computed distance and time, but with a
symmetric segment distance (as the geodesic distance is) the two-point
route from (0,0) to (3,4) has identical metrics in both directions. -/
theorem claim_C8_counterexample :
    2 ≤ ([some (0, 0), some (3, 4)] : List (Option Coordinate)).length ∧
    calculate_route_cost taxiDist
        ([some (0, 0), some (3, 4)] : List (Option Coordinate)).reverse =
      calculate_route_cost taxiDist [some (0, 0), some (3, 4)] :=
  ⟨by decide,
    by norm_num [calculate_route_cost, calculate_distance_time, taxiDist, absQ]⟩

/-- C8 amended: calculate_route_cost is invariant under reversal of its
input sequence whenever the segment-distance function is symmetric, which
the great-circle distance is: the reversed route traverses the same
consecutive pairs with swapped endpoints, so total distance, total time
(including the per-segment five minutes) and hence cost are unchanged. -/
theorem claim_C8_reverse_invariant (geodesic : Coordinate → Coordinate → ℚ)
    (hsym : ∀ a b, geodesic a b = geodesic b a)
    (route_coords : List (Option Coordinate)) :
    calculate_route_cost geodesic route_coords.reverse =
      calculate_route_cost geodesic route_coords := by
  have hfold : ∀ F : Option Coordinate × Option Coordinate → PyFloat,
      (∀ p : Option Coordinate × Option Coordinate, F p.swap = F p) →
      ((route_coords.reverse.zip route_coords.reverse.tail).map F).foldl
          PyFloat.add (.fin 0) =
        ((route_coords.zip route_coords.tail).map F).foldl
          PyFloat.add (.fin 0) := by
    intro F hF
    rw [zip_tail_reverse, List.map_reverse, List.map_map]
    have hmap : (route_coords.zip route_coords.tail).map (F ∘ Prod.swap) =
        (route_coords.zip route_coords.tail).map F :=
      List.map_congr_left fun p _ => hF p
    rw [hmap]
    exact (List.reverse_perm _).foldl_eq _
  simp only [calculate_route_cost, List.length_reverse]
  by_cases h : route_coords.length < 2
  · simp [h]
  · simp only [if_neg h]
    rw [hfold (fun p => (calculate_distance_time geodesic p.1 p.2).1)
        (fun p => congrArg Prod.fst
          (calculate_distance_time_swap geodesic hsym p.1 p.2)),
      hfold (fun p => (calculate_distance_time geodesic p.1 p.2).2)
        (fun p => congrArg Prod.snd
          (calculate_distance_time_swap geodesic hsym p.1 p.2))]

theorem absQ_sub_comm (a b : ℚ) : absQ (a - b) = absQ (b - a) := by
  unfold absQ
  by_cases h : a - b < 0
  · rw [if_pos h, if_neg (by linarith)]
    ring
  · by_cases h2 : b - a < 0
    · rw [if_neg h, if_pos h2]
      ring
    · rw [if_neg h, if_neg h2]
      push_neg at h h2
      linarith

theorem taxiDist_symm (a b : Coordinate) : taxiDist a b = taxiDist b a := by
  unfold taxiDist
  rw [absQ_sub_comm, absQ_sub_comm a.2]

/-- Witness for the amended C8 at a concrete three-point route. -/
theorem claim_C8_witness :
    calculate_route_cost taxiDist
        ([some (0, 0), some (9, 2), some (3, 4)] :
          List (Option Coordinate)).reverse =
      calculate_route_cost taxiDist
        [some (0, 0), some (9, 2), some (3, 4)] :=
  claim_C8_reverse_invariant taxiDist taxiDist_symm
    [some (0, 0), some (9, 2), some (3, 4)]

theorem candidates_length {α : Type} (geodesic : Coordinate → Coordinate → ℚ)
    (coordOf : α → Coordinate) (a : α) (ds : List α) (rts : Bool) :
    (candidates geodesic coordOf a ds rts).length = Nat.factorial ds.length := by
  unfold candidates
  rw [List.length_map, permutationsPy_length]

theorem candidates_ne_nil {α : Type} (geodesic : Coordinate → Coordinate → ℚ)
    (coordOf : α → Coordinate) (a : α) (ds : List α) (rts : Bool) :
    candidates geodesic coordOf a ds rts ≠ [] := by
  intro h
  have hlen := candidates_length geodesic coordOf a ds rts
  rw [h] at hlen
  exact absurd hlen.symm (Nat.factorial_pos ds.length).ne'

/-- C1: on a valid input the returned best_route is a candidate of globally
minimal cost, and every candidate enumerated before it costs strictly more,
so among equal-cost ties the first enumerated permutation wins (the update
uses strict less-than). -/
theorem claim_C1_best_route {α : Type} (geodesic : Coordinate → Coordinate → ℚ)
    (geo : α → Option Coordinate) (a : α) (ds : List α) (rts : Bool)
    (hds : ds ≠ []) (h10 : ds.length ≤ 9)
    (hres : ∀ x ∈ a :: ds, (geo x).isSome) :
    ∃ res b l₁ l₂,
      optimize_route geodesic geo (a :: ds) rts = .ok res ∧
      res.best_route = some b ∧
      candidates geodesic (fun x => (geo x).getD (0, 0)) a ds rts =
        l₁ ++ b :: l₂ ∧
      (∀ c ∈ candidates geodesic (fun x => (geo x).getD (0, 0)) a ds rts,
        b.cost ≤ c.cost) ∧
      (∀ c ∈ l₁, b.cost < c.cost) := by
  obtain ⟨b, l₁, l₂, hb1, _hb2, hsplit, hmin, hpre⟩ :=
    foldl_stepBest_spec
      (candidates geodesic (fun x => (geo x).getD (0, 0)) a ds rts)
      (candidates_ne_nil geodesic _ a ds rts)
  exact ⟨_, b, l₁, l₂, optimize_route_ok geodesic geo a ds rts hds h10 hres,
    hb1, hsplit, hmin, hpre⟩

/-- Witness for C1 on the three-address input 0, 1, 2 placed on a line. -/
theorem claim_C1_witness :
    ∃ res b l₁ l₂,
      optimize_route taxiDist geoLine [0, 1, 2] true = .ok res ∧
      res.best_route = some b ∧
      candidates taxiDist (fun x => (geoLine x).getD (0, 0)) 0 [1, 2] true =
        l₁ ++ b :: l₂ ∧
      (∀ c ∈ candidates taxiDist (fun x => (geoLine x).getD (0, 0)) 0 [1, 2]
        true, b.cost ≤ c.cost) ∧
      (∀ c ∈ l₁, b.cost < c.cost) :=
  claim_C1_best_route taxiDist geoLine 0 [1, 2] true (by decide) (by decide)
    (by decide)

/-- C4: on a valid input with n delivery stops the enumerator builds exactly
n factorial candidate routes (one per permutation) and reports that count in
total_permutations. -/
theorem claim_C4_permutation_count {α : Type}
    (geodesic : Coordinate → Coordinate → ℚ) (geo : α → Option Coordinate)
    (a : α) (ds : List α) (rts : Bool) (hds : ds ≠ []) (h10 : ds.length ≤ 9)
    (hres : ∀ x ∈ a :: ds, (geo x).isSome) :
    ∃ res,
      optimize_route geodesic geo (a :: ds) rts = .ok res ∧
      res.total_permutations = Nat.factorial ds.length ∧
      (candidates geodesic (fun x => (geo x).getD (0, 0)) a ds rts).length =
        Nat.factorial ds.length :=
  ⟨_, optimize_route_ok geodesic geo a ds rts hds h10 hres,
    permutationsPy_length ds, candidates_length geodesic _ a ds rts⟩

/-- Witness for C4 on the four-address input 0, 1, 2, 3: six permutations. -/
theorem claim_C4_witness :
    ∃ res,
      optimize_route taxiDist geoLine [0, 1, 2, 3] false = .ok res ∧
      res.total_permutations = Nat.factorial [1, 2, 3].length ∧
      (candidates taxiDist (fun x => (geoLine x).getD (0, 0)) 0 [1, 2, 3]
        false).length = Nat.factorial [1, 2, 3].length :=
  claim_C4_permutation_count taxiDist geoLine 0 [1, 2, 3] false (by decide)
    (by decide) (by decide)

theorem costLE_trans {α : Type} (u v w : RouteData α)
    (h1 : decide (u.cost ≤ v.cost) = true)
    (h2 : decide (v.cost ≤ w.cost) = true) :
    decide (u.cost ≤ w.cost) = true := by
  simp only [decide_eq_true_eq] at *
  exact le_trans h1 h2

theorem costLE_total {α : Type} (u v : RouteData α) :
    (decide (u.cost ≤ v.cost) || decide (v.cost ≤ u.cost)) = true := by
  rcases le_total u.cost v.cost with h | h <;> simp [h]

/-- Stability of the sort by cost, in filter form: for every cost value the
sorted list carries the candidates of that cost in their original relative
order. -/
theorem mergeSort_filter_cost {α : Type} (l : List (RouteData α)) (q : ℚ) :
    ((l.mergeSort fun u v => decide (u.cost ≤ v.cost)).filter
        fun c => decide (c.cost = q)) =
      l.filter fun c => decide (c.cost = q) := by
  have hpair : (l.filter fun c => decide (c.cost = q)).Pairwise
      (fun u v => decide (u.cost ≤ v.cost) = true) := by
    apply List.pairwise_of_forall_mem_list
    intro u hu v hv
    have hu2 := (List.mem_filter.mp hu).2
    have hv2 := (List.mem_filter.mp hv).2
    simp only [decide_eq_true_eq] at hu2 hv2 ⊢
    rw [hu2, hv2]
  have hsub : List.Sublist (l.filter fun c => decide (c.cost = q))
      (l.mergeSort fun u v => decide (u.cost ≤ v.cost)) :=
    List.sublist_mergeSort costLE_trans costLE_total hpair (List.filter_sublist l)
  have hsub2 : List.Sublist (l.filter fun c => decide (c.cost = q))
      ((l.mergeSort fun u v => decide (u.cost ≤ v.cost)).filter
        fun c => decide (c.cost = q)) := by
    have h2 := hsub.filter fun c => decide (c.cost = q)
    rw [List.filter_filter] at h2
    simpa only [Bool.and_self] using h2
  have hlen : ((l.mergeSort fun u v => decide (u.cost ≤ v.cost)).filter
        fun c => decide (c.cost = q)).length =
      (l.filter fun c => decide (c.cost = q)).length :=
    ((List.mergeSort_perm l _).filter _).length_eq
  exact (hsub2.eq_of_length hlen.symm).symm

/-- C5: on a valid input the returned alternatives are the first ten entries
of a stable ascending-by-cost sort of all candidates: sorted, a permutation
of the candidates preserving relative order within each cost value, of
length min(n factorial, 10), and headed by a route whose cost equals the
best cost. -/
theorem claim_C5_alternatives {α : Type} (geodesic : Coordinate → Coordinate → ℚ)
    (geo : α → Option Coordinate) (a : α) (ds : List α) (rts : Bool)
    (hds : ds ≠ []) (h10 : ds.length ≤ 9)
    (hres : ∀ x ∈ a :: ds, (geo x).isSome) :
    ∃ res,
      optimize_route geodesic geo (a :: ds) rts = .ok res ∧
      ∃ sorted : List (RouteData α),
        res.all_routes = sorted.take 10 ∧
        sorted.Perm
          (candidates geodesic (fun x => (geo x).getD (0, 0)) a ds rts) ∧
        sorted.Pairwise (fun u v => u.cost ≤ v.cost) ∧
        (∀ q : ℚ, (sorted.filter fun c => decide (c.cost = q)) =
          ((candidates geodesic (fun x => (geo x).getD (0, 0)) a ds
            rts).filter fun c => decide (c.cost = q))) ∧
        res.all_routes.length = min (Nat.factorial ds.length) 10 ∧
        (∀ b, res.best_route = some b →
          ∃ h, res.all_routes.head? = some h ∧ h.cost = b.cost) := by
  refine ⟨_, optimize_route_ok geodesic geo a ds rts hds h10 hres,
    (candidates geodesic (fun x => (geo x).getD (0, 0)) a ds rts).mergeSort
      (fun u v => decide (u.cost ≤ v.cost)), rfl,
    List.mergeSort_perm _ _, ?_, fun q => mergeSort_filter_cost _ q, ?_, ?_⟩
  · exact (List.sorted_mergeSort costLE_trans costLE_total _).imp
      (fun h => of_decide_eq_true h)
  · show (List.take 10 _).length = _
    rw [List.length_take, List.length_mergeSort, candidates_length,
      Nat.min_comm]
  · intro b hb
    obtain ⟨b0, l₁, l₂, hb1, _hb2, hsplit, hmin, _hpre⟩ :=
      foldl_stepBest_spec
        (candidates geodesic (fun x => (geo x).getD (0, 0)) a ds rts)
        (candidates_ne_nil geodesic _ a ds rts)
    have hbb : b = b0 := by
      have := hb1.symm.trans hb
      exact (Option.some_injective _ this).symm
    rw [hbb]
    set cands :=
      candidates geodesic (fun x => (geo x).getD (0, 0)) a ds rts with hc
    set sorted := cands.mergeSort (fun u v => decide (u.cost ≤ v.cost))
      with hs
    have hne : sorted ≠ [] := by
      intro h
      have := (List.mergeSort_perm cands
        (fun u v => decide (u.cost ≤ v.cost))).length_eq
      rw [← hs, h] at this
      exact candidates_ne_nil geodesic _ a ds rts
        (List.length_eq_zero.mp this.symm)
    obtain ⟨h0, t, ht⟩ : ∃ h0 t, sorted = h0 :: t := by
      cases hcase : sorted with
      | nil => exact absurd hcase hne
      | cons h0 t => exact ⟨h0, t, rfl⟩
    refine ⟨h0, ?_, ?_⟩
    · show (sorted.take 10).head? = some h0
      rw [ht]
      rfl
    · have hh0mem : h0 ∈ cands := by
        have : h0 ∈ sorted := by rw [ht]; exact List.mem_cons_self h0 t
        exact List.mem_mergeSort.mp this
      have hle1 : b0.cost ≤ h0.cost := hmin h0 hh0mem
      have hb0mem : b0 ∈ cands := by
        rw [hsplit]
        exact List.mem_append_right l₁ (List.mem_cons_self b0 l₂)
      have hb0sorted : b0 ∈ sorted := List.mem_mergeSort.mpr hb0mem
      have hle2 : h0.cost ≤ b0.cost := by
        rw [ht] at hb0sorted
        rcases List.mem_cons.mp hb0sorted with heq | hmem
        · rw [heq]
        · have hpw := List.sorted_mergeSort costLE_trans costLE_total cands
          rw [← hs, ht] at hpw
          exact of_decide_eq_true (List.rel_of_pairwise_cons hpw hmem)
      exact le_antisymm hle2 hle1

/-- Witness for C5 on the three-address input 0, 2, 1 placed on a line. -/
theorem claim_C5_witness :
    ∃ res,
      optimize_route taxiDist geoLine [0, 2, 1] false = .ok res ∧
      ∃ sorted : List (RouteData Nat),
        res.all_routes = sorted.take 10 ∧
        sorted.Perm
          (candidates taxiDist (fun x => (geoLine x).getD (0, 0)) 0 [2, 1]
            false) ∧
        sorted.Pairwise (fun u v => u.cost ≤ v.cost) ∧
        (∀ q : ℚ, (sorted.filter fun c => decide (c.cost = q)) =
          ((candidates taxiDist (fun x => (geoLine x).getD (0, 0)) 0 [2, 1]
            false).filter fun c => decide (c.cost = q))) ∧
        res.all_routes.length = min (Nat.factorial [2, 1].length) 10 ∧
        (∀ b, res.best_route = some b →
          ∃ h, res.all_routes.head? = some h ∧ h.cost = b.cost) :=
  claim_C5_alternatives taxiDist geoLine 0 [2, 1] false (by decide)
    (by decide) (by decide)

/-- C9: every candidate route built by the enumerator has the origin at
position 0, has length equal to the number of delivery stops plus one (plus
two when returning to start, in which case the origin is also last), and
visits the delivery stops exactly once each (its interior is a permutation
of the delivery list). -/
theorem claim_C9_route_invariant {α : Type}
    (geodesic : Coordinate → Coordinate → ℚ) (coordOf : α → Coordinate)
    (a : α) (ds : List α) (rts : Bool) :
    ∀ r ∈ candidates geodesic coordOf a ds rts,
      r.addresses.length = ds.length + (if rts then 2 else 1) ∧
      r.addresses.head? = some a ∧
      (rts = true → r.addresses.getLast? = some a) ∧
      (if rts then r.addresses.tail.dropLast else r.addresses.tail).Perm
        ds := by
  intro r hr
  obtain ⟨perm, hperm, rfl⟩ := List.mem_map.mp hr
  have hp : perm.Perm ds := mem_permutationsPy hperm
  have hlen : perm.length = ds.length := hp.length_eq
  cases rts with
  | false =>
    refine ⟨?_, rfl, ?_, ?_⟩
    · show (a :: perm).length = ds.length + 1
      rw [List.length_cons, hlen]
    · intro h
      exact Bool.noConfusion h
    · show (a :: perm).tail.Perm ds
      exact hp
  | true =>
    refine ⟨?_, rfl, ?_, ?_⟩
    · show (a :: (perm ++ [a])).length = ds.length + 2
      rw [List.length_cons, List.length_append, hlen, List.length_singleton]
    · intro _
      show (a :: (perm ++ [a])).getLast? = some a
      rw [← List.cons_append, List.getLast?_concat]
    · show (a :: (perm ++ [a])).tail.dropLast.Perm ds
      rw [List.tail_cons, List.dropLast_concat]
      exact hp

/-- Witness for C9 at the single candidate of one delivery stop. -/
theorem claim_C9_witness :
    (buildRouteData taxiDist (fun x => (geoLine x).getD (0, 0)) 0 true
        [1]).addresses.length = [1].length + (if true then 2 else 1) ∧
    (buildRouteData taxiDist (fun x => (geoLine x).getD (0, 0)) 0 true
        [1]).addresses.head? = some 0 ∧
    (true = true →
      (buildRouteData taxiDist (fun x => (geoLine x).getD (0, 0)) 0 true
        [1]).addresses.getLast? = some 0) ∧
    (if true then
        (buildRouteData taxiDist (fun x => (geoLine x).getD (0, 0)) 0 true
          [1]).addresses.tail.dropLast
      else
        (buildRouteData taxiDist (fun x => (geoLine x).getD (0, 0)) 0 true
          [1]).addresses.tail).Perm [1] :=
  claim_C9_route_invariant taxiDist (fun x => (geoLine x).getD (0, 0)) 0 [1]
    true
    (buildRouteData taxiDist (fun x => (geoLine x).getD (0, 0)) 0 true [1])
    (List.mem_singleton.mpr rfl)

/-- C10: on every input of two to ten addresses that all geocode, the
optimisation succeeds with a non-null best_route drawn from the candidate
list: the first enumerated candidate always beats the infinite starting
sentinel, so the tracked best ends at a finite cost. -/
theorem claim_C10_finite_best {α : Type}
    (geodesic : Coordinate → Coordinate → ℚ) (geo : α → Option Coordinate)
    (a : α) (ds : List α) (rts : Bool) (hds : ds ≠ []) (h10 : ds.length ≤ 9)
    (hres : ∀ x ∈ a :: ds, (geo x).isSome) :
    ∃ res b,
      optimize_route geodesic geo (a :: ds) rts = .ok res ∧
      res.best_route = some b ∧
      b ∈ candidates geodesic (fun x => (geo x).getD (0, 0)) a ds rts ∧
      (candidates geodesic (fun x => (geo x).getD (0, 0)) a ds rts).foldl
        stepBest (none, .inf) = (some b, .fin b.cost) := by
  obtain ⟨b, l₁, l₂, hb1, hb2, hsplit, _hmin, _hpre⟩ :=
    foldl_stepBest_spec
      (candidates geodesic (fun x => (geo x).getD (0, 0)) a ds rts)
      (candidates_ne_nil geodesic _ a ds rts)
  refine ⟨_, b, optimize_route_ok geodesic geo a ds rts hds h10 hres, hb1,
    ?_, ?_⟩
  · rw [hsplit]
    exact List.mem_append_right l₁ (List.mem_cons_self b l₂)
  · exact Prod.ext hb1 hb2

/-- Witness for C10 on the two-address input 0, 5. -/
theorem claim_C10_witness :
    ∃ res b,
      optimize_route taxiDist geoLine [0, 5] true = .ok res ∧
      res.best_route = some b ∧
      b ∈ candidates taxiDist (fun x => (geoLine x).getD (0, 0)) 0 [5] true ∧
      (candidates taxiDist (fun x => (geoLine x).getD (0, 0)) 0 [5]
        true).foldl stepBest (none, .inf) = (some b, .fin b.cost) :=
  claim_C10_finite_best taxiDist geoLine 0 [5] true (by decide) (by decide)
    (by decide)

/-- C6: ten addresses (nine delivery stops) succeed whenever every address
geocodes, while eleven addresses (ten delivery stops) fail with the
too-many-addresses error before geocoding or enumeration. -/
theorem claim_C6_boundary {α : Type} (geodesic : Coordinate → Coordinate → ℚ)
    (geo : α → Option Coordinate) :
    (∀ (addresses : List α) (rts : Bool), addresses.length = 10 →
      (∀ x ∈ addresses, (geo x).isSome) →
      ∃ res, optimize_route geodesic geo addresses rts = .ok res) ∧
    (∀ (addresses : List α) (rts : Bool), addresses.length = 11 →
      optimize_route geodesic geo addresses rts = .error .tooManyStops) := by
  constructor
  · intro addresses rts hlen hres
    cases addresses with
    | nil => exact absurd hlen (by simp)
    | cons a ds =>
      have hds : ds ≠ [] := by
        intro h
        rw [h] at hlen
        simp at hlen
      have h10 : ds.length ≤ 9 := by
        rw [List.length_cons] at hlen
        omega
      exact ⟨_, optimize_route_ok geodesic geo a ds rts hds h10 hres⟩
  · intro addresses rts hlen
    unfold optimize_route
    rw [if_neg (by omega), if_pos (by omega)]

/-- Witness for C6: the concrete ten-address and eleven-address inputs. -/
theorem claim_C6_witness :
    (∃ res, optimize_route taxiDist geoLine [0, 1, 3, 4, 5, 6, 7, 8, 9, 10]
      true = .ok res) ∧
    optimize_route taxiDist geoLine [0, 1, 3, 4, 5, 6, 7, 8, 9, 10, 11]
      true = .error .tooManyStops :=
  ⟨(claim_C6_boundary taxiDist geoLine).1 [0, 1, 3, 4, 5, 6, 7, 8, 9, 10]
      true (by decide) (by decide),
    (claim_C6_boundary taxiDist geoLine).2 [0, 1, 3, 4, 5, 6, 7, 8, 9, 10, 11]
      true (by decide)⟩

/-- C7: when some address fails to geocode (and the length checks pass),
optimize_route fails with the could-not-geocode error naming an unresolved
input address, and returns no routes. -/
theorem claim_C7_unresolved {α : Type} (geodesic : Coordinate → Coordinate → ℚ)
    (geo : α → Option Coordinate) (addresses : List α) (rts : Bool)
    (h2 : 2 ≤ addresses.length) (h10 : addresses.length ≤ 10)
    (hbad : ∃ x ∈ addresses, geo x = none) :
    ∃ a, optimize_route geodesic geo addresses rts =
        .error (.unresolvedAddress a) ∧ a ∈ addresses ∧ geo a = none := by
  obtain ⟨x, hx, hnone⟩ := hbad
  have hsome : (addresses.find? fun y => (geo y).isNone).isSome :=
    List.find?_isSome.mpr ⟨x, hx, by rw [hnone]; rfl⟩
  obtain ⟨a, ha⟩ := Option.isSome_iff_exists.mp hsome
  have hpa := List.find?_some ha
  refine ⟨a, ?_, List.mem_of_find?_eq_some ha,
    Option.isNone_iff_eq_none.mp hpa⟩
  unfold optimize_route
  rw [if_neg (by omega), if_neg (by omega), ha]

/-- Witness for C7 on the input 0, 2, 1 where address 2 fails to geocode. -/
theorem claim_C7_witness :
    ∃ a, optimize_route taxiDist geoMissing [0, 2, 1] false =
        .error (.unresolvedAddress a) ∧ a ∈ [0, 2, 1] ∧ geoMissing a = none :=
  claim_C7_unresolved taxiDist geoMissing [0, 2, 1] false (by decide)
    (by decide) ⟨2, by decide, by decide⟩

end RotasApp
